import Mathlib

/-!
Shallow embedding of `internal/model/model.go` of the roumon repository.

Go strings are modelled as `List Char` (the inputs of interest are ASCII, where
byte-wise and rune-wise operations agree).  Go's `int`/`int64` are modelled as
`Int`; `strconv.ParseInt` performs the bit-size range check explicitly.
A Go runtime panic (out-of-range slice) is modelled by the `PRes.fault`
constructor; a returned `error` by `PRes.err`; normal return by `PRes.ok`.
The `bufio.Scanner` over the input `io.Reader` is modelled by a list of the
lines the scanner delivers before `Scan` first returns `false`, together with
an optional stream error that `scanner.Err()` reports afterwards (`GoStream`).
-/

/-- Result of running a piece of Go code: normal value, returned `error`,
or runtime panic (`fault`). -/
inductive PRes (α : Type) where
  | ok : α → PRes α
  | err : PRes α
  | fault : PRes α
deriving Repr, DecidableEq

/-- Convert a Lean string literal to the `List Char` string model. -/
def toL (s : String) : List Char := s.data

/-- Go `unicode.IsSpace` restricted to ASCII (the only code points our
theorems quantify over; see the ASCII hypotheses there). -/
def isGoSpace (c : Char) : Bool :=
  c = ' ' || c = '\t' || c = '\n' || c = '\x0b' || c = '\x0c' || c = '\r'

/-- Go `strings.TrimSpace`. -/
def trimSpace (l : List Char) : List Char :=
  ((l.dropWhile isGoSpace).reverse.dropWhile isGoSpace).reverse

/-- Go `strings.Trim(s, cutset)` for a one-character cutset. -/
def trimChar (c : Char) (l : List Char) : List Char :=
  ((l.dropWhile (· == c)).reverse.dropWhile (· == c)).reverse

/-- Go `strings.Split(s, sep)` for a one-character separator: the list of
substrings between occurrences of `sep`; never empty. -/
def splitChar (c : Char) : List Char → List (List Char)
  | [] => [[]]
  | a :: t =>
    if a = c then [] :: splitChar c t
    else
      match splitChar c t with
      | h :: r => (a :: h) :: r
      | [] => [[a]]

/-- Go `strings.Index(s, sub)` for a one-character `sub`: first index or -1. -/
def indexOf : List Char → Char → Int
  | [], _ => -1
  | a :: t, c =>
    if a = c then 0
    else
      let r := indexOf t c
      if r ≥ 0 then r + 1 else -1

/-- Go `strings.LastIndex(s, sub)` for a one-character `sub`: last index or -1. -/
def lastIndexOf : List Char → Char → Int
  | [], _ => -1
  | a :: t, c =>
    let r := lastIndexOf t c
    if r ≥ 0 then r + 1 else if a = c then 0 else -1

/-- Go `strings.HasPrefix`. -/
def goHasPre (s pre : List Char) : Bool := s.take pre.length = pre

/-- Go `strings.HasSuffix`. -/
def goHasSuf (s suf : List Char) : Bool := s.drop (s.length - suf.length) = suf

/-- Go slice expression `s[lo:hi]`: `none` models the bounds-check panic. -/
def goSlice (s : List Char) (lo hi : Int) : Option (List Char) :=
  if 0 ≤ lo ∧ lo ≤ hi ∧ hi ≤ (s.length : Int) then
    some ((s.drop lo.toNat).take (hi - lo).toNat)
  else none

/-- Go slice expression `s[lo:]`. -/
def goSliceFrom (s : List Char) (lo : Int) : Option (List Char) :=
  goSlice s lo (s.length : Int)

/-- Go slice expression `s[:hi]`. -/
def goSliceTo (s : List Char) (hi : Int) : Option (List Char) :=
  goSlice s 0 hi

/-- Numeric value of one digit character, as in `strconv`: `none` when the
character is not a digit of the given base. -/
def digitVal (base : Nat) (c : Char) : Option Nat :=
  let v : Nat :=
    if '0' ≤ c ∧ c ≤ '9' then c.toNat - '0'.toNat
    else if 'a' ≤ c ∧ c ≤ 'z' then c.toNat - 'a'.toNat + 10
    else if 'A' ≤ c ∧ c ≤ 'Z' then c.toNat - 'A'.toNat + 10
    else 99
  if v < base then some v else none

/-- Digit-string value accumulator for `strconv.ParseInt`. -/
def parseDigitsAux (base : Nat) (acc : Nat) : List Char → Option Nat
  | [] => some acc
  | c :: t =>
    match digitVal base c with
    | none => none
    | some d => parseDigitsAux base (acc * base + d) t

/-- Go `strconv.ParseInt(s, base, bits)` for an explicit base (10 or 16 in this
code): optional sign, then a nonempty run of digits of the base, with the
`bits`-sized two's-complement range check; `none` models the returned error
(both `ErrSyntax` and `ErrRange`). -/
def goParseInt (s : List Char) (base : Nat) (bits : Nat) : Option Int :=
  match s with
  | [] => none
  | '+' :: t =>
    if t = [] then none
    else
      match parseDigitsAux base 0 t with
      | none => none
      | some n => if (n : Int) ≤ 2 ^ (bits - 1) - 1 then some (n : Int) else none
  | '-' :: t =>
    if t = [] then none
    else
      match parseDigitsAux base 0 t with
      | none => none
      | some n => if (n : Int) ≤ 2 ^ (bits - 1) then some (-(n : Int)) else none
  | _ =>
    match parseDigitsAux base 0 s with
    | none => none
    | some n => if (n : Int) ≤ 2 ^ (bits - 1) - 1 then some (n : Int) else none

/-- StackFrame of `model.go`: one stack frame.  `Position` is the Go field
`Position *int`: `none` models a nil pointer. -/
structure StackFrame where
  FuncName : List Char
  File : List Char
  Line : Int
  Position : Option Int
deriving Repr, DecidableEq

/-- Goroutine record of `model.go`. -/
structure Goroutine where
  ID : Int
  Status : List Char
  WaitSinceMin : Int
  StackTrace : List StackFrame
  CratedBy : Option StackFrame
  LockedToThread : Bool
deriving Repr, DecidableEq

/-- Decimal rendering of a Go `int` by `fmt` verb `%d`. -/
def intToDec (i : Int) : List Char :=
  if i < 0 then '-' :: Nat.toDigits 10 (-i).toNat else Nat.toDigits 10 i.toNat

/-- Rendering `func (s StackFrame) String() string` of `model.go`:
`fmt.Sprintf("%s\n   file://%s#%d +0x%x", s.FuncName, s.File, s.Line, s.Position)`.
The last operand is the `*int` pointer itself, and Go's `fmt` formats a
pointer under `%x` as its address in hexadecimal (and a nil pointer as `0`),
so the rendered text depends on the allocation address of the pointed-to
int, passed here as the explicit environment parameter `addr`. -/
def StackFrame.goString (s : StackFrame) (addr : Nat) : List Char :=
  s.FuncName ++ toL ("\n   file://") ++ s.File ++ ['#'] ++ intToDec s.Line
    ++ toL (" +0x")
    ++ Nat.toDigits 16 (match s.Position with | some _ => addr | none => 0)

/-- Go `strings.ToLower` restricted to ASCII. -/
def toLowerL (l : List Char) : List Char := l.map Char.toLower

/-- Go `strings.Contains`. -/
def listContains : List Char → List Char → Bool
  | [], sub => sub.isEmpty
  | a :: t, sub => goHasPre (a :: t) sub || listContains t sub

/-- StackContains of `model.go`: true when the lowercased rendering of some
frame contains `subString`.  `addr` supplies each frame's `Position` pointer
address for the rendering (see `StackFrame.goString`). -/
def StackContains (addr : StackFrame → Nat) (sf : List StackFrame)
    (subString : List Char) : Bool :=
  sf.any fun s => listContains (toLowerL (s.goString (addr s))) subString

/-- Pure per-line core of `parseStackPos` of `model.go` (the function also
consumes one line from the scanner; that part lives in `blockLoop` /
`ParseStackFrame`).  Returns the file name, line number and optional
position of one position line, `.err` for the returned parse errors, and
`.fault` for the out-of-range slice panics. -/
def parseStackPosLine (raw : List Char) : PRes (List Char × Int × Option Int) :=
  let text := trimSpace raw
  if text = [] then .err
  else
    let fileLineSep := lastIndexOf text ':'
    match goSliceTo text fileLineSep with
    | none => .fault
    | some fileName =>
      let linePosSep := lastIndexOf text ' '
      if fileLineSep + 1 ≥ linePosSep then
        match goSliceFrom text (fileLineSep + 1) with
        | none => .fault
        | some lineStr =>
          match goParseInt lineStr 10 32 with
          | none => .err
          | some lineInt => .ok (fileName, lineInt, none)
      else
        match goSliceFrom text (linePosSep + 4) with
        | none => .fault
        | some posStr =>
          match goParseInt posStr 16 64 with
          | none => .err
          | some posInt =>
            match goSlice text (fileLineSep + 1) linePosSep with
            | none => .fault
            | some lineStr =>
              match goParseInt lineStr 10 32 with
              | none => .err
              | some lineInt => .ok (fileName, lineInt, some posInt)

/-- Qualifier loop of `parseHeader` of `model.go` (the `for idx := 1; ...`
loop over `stateParts[1:]`), carrying `(waitTimeMin, lockedToThread)`. -/
def parseQualifiers : Int × Bool → List (List Char) → PRes (Int × Bool)
  | st, [] => .ok st
  | (w, locked), partRaw :: rest =>
    let part := trimChar ' ' partRaw
    if goHasSuf part (toL ("minutes")) then
      let minUnitSep := indexOf part ' '
      match goSliceTo part minUnitSep with
      | none => .fault
      | some numStr =>
        match goParseInt numStr 10 64 with
        | none => .err
        | some w2 => parseQualifiers (w2, locked) rest
    else if part = toL ("locked to thread") then
      parseQualifiers (w, true) rest
    else
      parseQualifiers (w, locked) rest

/-- parseHeader of `model.go`. -/
def parseHeader (header : List Char) : PRes Goroutine :=
  match splitChar ' ' header with
  | t0 :: t1 :: _ :: _ =>
    if t0 ≠ toL ("goroutine") then .err
    else
      match goParseInt t1 10 64 with
      | none => .err
      | some id =>
        let stateStartIdx := indexOf header '['
        match goSlice header (stateStartIdx + 1) ((header.length : Int) - 2) with
        | none => .fault
        | some fullState =>
          match splitChar ',' fullState with
          | [onlyPart] => .ok ⟨id, onlyPart, 0, [], none, false⟩
          | s0 :: restParts =>
            match parseQualifiers (0, false) restParts with
            | .ok (w, locked) => .ok ⟨id, s0, w, [], none, locked⟩
            | .err => .err
            | .fault => .fault
          | [] => .err
  | _ => .err

mutual

/-- Outer `for scanner.Scan()` loop of `ParseStackFrame` of `model.go`:
each delivered line is tried as a block header; on a header parse error the
line is skipped (`continue`), otherwise the block body is scanned by
`blockLoop` and the finished record appended. -/
def parseLoop : List (List Char) → List Goroutine → PRes (List Goroutine)
  | [], acc => .ok acc
  | line :: rest, acc =>
    match parseHeader line with
    | .fault => .fault
    | .err => parseLoop rest acc
    | .ok r => blockLoop rest { r with StackTrace := [] } acc

/-- Inner `for scanner.Scan()` loop of `ParseStackFrame` of `model.go`: a
blank line ends the block; a `created by ` line or a function-name line is
followed by one position line consumed by `parseStackPos`; a position-line
parse error skips that one frame (`continue`); running out of input while a
position line is expected is `parseStackPos`'s end-of-file error, also
skipped, after which the loops end.  When the loop ends, the record is
appended and the outer loop resumes. -/
def blockLoop : List (List Char) → Goroutine → List Goroutine → PRes (List Goroutine)
  | [], r, acc => .ok (acc ++ [r])
  | traceLine :: rest, r, acc =>
    if traceLine = [] then parseLoop rest (acc ++ [r])
    else if goHasPre traceLine (toL ("created by ")) then
      match rest with
      | [] => .ok (acc ++ [r])
      | posLine :: rest2 =>
        match parseStackPosLine posLine with
        | .fault => .fault
        | .err => blockLoop rest2 r acc
        | .ok (file, ln, pos) =>
          match goSliceFrom traceLine 11 with
          | none => .fault
          | some fname =>
            blockLoop rest2 { r with CratedBy := some ⟨fname, file, ln, pos⟩ } acc
    else
      match rest with
      | [] => .ok (acc ++ [r])
      | posLine :: rest2 =>
        match parseStackPosLine posLine with
        | .fault => .fault
        | .err => blockLoop rest2 r acc
        | .ok (file, ln, pos) =>
          blockLoop rest2
            { r with StackTrace := r.StackTrace ++ [⟨traceLine, file, ln, pos⟩] } acc

end

/-- Model of the `io.Reader` as seen through `bufio.Scanner`: the lines the
scanner delivers before `Scan` first returns false, and the error that
`scanner.Err()` reports afterwards (`none` for plain end of input). -/
structure GoStream where
  lines : List (List Char)
  fin : Option (List Char)
deriving Repr, DecidableEq

/-- ParseStackFrame of `model.go`: runs the scanning loops over the delivered
lines and returns the named results `(routines, err)`, where `err` is set to
`scanner.Err()` after the loops end. -/
def ParseStackFrame (st : GoStream) : PRes (List Goroutine × Option (List Char)) :=
  match parseLoop st.lines [] with
  | .fault => .fault
  | .err => .err
  | .ok rs => .ok (rs, st.fin)

/-- Strip one trailing carriage return, as `bufio.ScanLines`'s `dropCR`. -/
def dropCR (l : List Char) : List Char :=
  if l.getLast? = some '\r' then l.dropLast else l

/-- Lines a `bufio.Scanner` with `ScanLines` delivers for a whole input text:
split at every newline, with no empty final token after a terminating
newline, and any trailing `\r` stripped from each line. -/
def goLines (s : List Char) : List (List Char) :=
  let ps := splitChar '\n' s
  let ps := if ps.getLast? = some [] then ps.dropLast else ps
  ps.map dropCR

/-- Input lines of a run of frame line pairs: each pair contributes its
function-name line then its position line. -/
def flattenPairs : List (List Char × List Char) → List (List Char)
  | [] => []
  | p :: t => p.1 :: p.2 :: flattenPairs t

/-- The frames a run of frame line pairs yields: pairs whose position line
parses contribute a frame; the others are skipped. -/
def framesOfPairs (pairs : List (List Char × List Char)) : List StackFrame :=
  pairs.filterMap fun p =>
    match parseStackPosLine p.2 with
    | .ok (file, ln, pos) => some ⟨p.1, file, ln, pos⟩
    | _ => none

/-- Header malformation in the sense of claim C4, following the spec's words:
fewer than 3 space-separated tokens, first token not `goroutine`, or a
non-integer id. -/
def headerMalformed (h : List Char) : Bool :=
  match splitChar ' ' h with
  | t0 :: t1 :: _ :: _ => t0 ≠ toL ("goroutine") || (goParseInt t1 10 64).isNone
  | _ => true

example : parseHeader (toL ("goroutine 7 [chan receive, 3 minutes, locked to thread]:"))
    = .ok ⟨7, toL ("chan receive"), 3, [], none, true⟩ := by decide

example : parseStackPosLine (toL ("\t/a/b.go:10 +0x1a")) = .ok (toL ("/a/b.go"), 10, some 26) := by decide

example : ParseStackFrame ⟨goLines (toL ("goroutine 5 [running]:\nmain.foo\n\t/a/b.go:10 +0x1a\n\n")), none⟩
    = .ok ([⟨5, toL ("running"), 0, [⟨toL ("main.foo"), toL ("/a/b.go"), 10, some 26⟩], none, false⟩], none) := by decide

example : parseStackPosLine (toL ("ab")) = .fault := by decide

example : parseHeader (toL ("goroutine 8 [running, minutes]:")) = .fault := by decide

example : parseHeader (toL ("goroutine 1 [running, foo minutes]:")) = .err := by decide

/-! Auxiliary lemmas about the string-operation models. -/

theorem dropWhile_beq_eq_self (c : Char) (l : List Char) (h : l.head? ≠ some c) :
    l.dropWhile (· == c) = l := by
  cases l with
  | nil => rfl
  | cons a t =>
    rw [List.dropWhile_cons_of_neg]
    simp only [List.head?_cons, ne_eq, Option.some.injEq] at h
    simp [h]

theorem trimChar_eq_self (c : Char) (l : List Char)
    (h1 : l.head? ≠ some c) (h2 : l.getLast? ≠ some c) : trimChar c l = l := by
  unfold trimChar
  rw [dropWhile_beq_eq_self c l h1]
  rw [dropWhile_beq_eq_self c l.reverse (by rwa [List.head?_reverse])]
  exact l.reverse_reverse

theorem head?_ne_of_not_mem {c : Char} {l : List Char} (h : c ∉ l) :
    l.head? ≠ some c := by
  cases l with
  | nil => simp
  | cons a t =>
    simp only [List.mem_cons, not_or] at h
    simp only [List.head?_cons, ne_eq, Option.some.injEq]
    exact fun hh => h.1 hh.symm

theorem getLast?_ne_of_not_mem {c : Char} {l : List Char} (h : c ∉ l) :
    l.getLast? ≠ some c := by
  intro hl
  exact h (List.mem_reverse.mp (List.mem_of_mem_head?
    (show l.reverse.head? = some c by rw [List.head?_reverse]; exact hl)))

theorem indexOf_append_cons (a b : List Char) (c : Char) (h : c ∉ a) :
    indexOf (a ++ c :: b) c = (a.length : Int) := by
  induction a with
  | nil => simp [indexOf]
  | cons x a' ih =>
    simp only [List.mem_cons, not_or] at h
    have hx : ¬x = c := fun hh => h.1 hh.symm
    have hle : (0 : Int) ≤ (a'.length : Int) := Int.natCast_nonneg _
    simp only [List.cons_append, indexOf, if_neg hx, List.append_eq, ih h.2,
      ge_iff_le, if_pos hle, List.length_cons]
    push_cast
    ring

theorem lastIndexOf_neg_of_not_mem (l : List Char) (c : Char) (h : c ∉ l) :
    lastIndexOf l c = -1 := by
  induction l with
  | nil => rfl
  | cons a t ih =>
    simp only [List.mem_cons, not_or] at h
    have hx : ¬a = c := fun hh => h.1 hh.symm
    simp [lastIndexOf, ih h.2, hx]

theorem lastIndexOf_lt_length (l : List Char) (c : Char) :
    lastIndexOf l c < (l.length : Int) := by
  induction l with
  | nil => simp [lastIndexOf]
  | cons a t ih =>
    simp only [lastIndexOf, List.length_cons]
    split
    · push_cast; omega
    · split <;> push_cast <;> omega

theorem lastIndexOf_append_not_mem (a b : List Char) (c : Char) (h : c ∉ b) :
    lastIndexOf (a ++ b) c = lastIndexOf a c := by
  induction a with
  | nil => simpa [lastIndexOf] using lastIndexOf_neg_of_not_mem b c h
  | cons x a' ih => simp [lastIndexOf, ih]

theorem lastIndexOf_append_cons (a b : List Char) (c : Char) (h : c ∉ b) :
    lastIndexOf (a ++ c :: b) c = (a.length : Int) := by
  induction a with
  | nil =>
    simp only [List.nil_append, lastIndexOf, lastIndexOf_neg_of_not_mem b c h,
      List.length_nil]
    norm_num
  | cons x a' ih =>
    have hle : (0 : Int) ≤ (a'.length : Int) := Int.natCast_nonneg _
    simp only [List.cons_append, lastIndexOf, List.append_eq, ih,
      ge_iff_le, if_pos hle, List.length_cons]
    push_cast
    ring

theorem goHasSuf_append (a b : List Char) : goHasSuf (a ++ b) b = true := by
  simp [goHasSuf, List.length_append]

theorem goSliceTo_append (a b : List Char) :
    goSliceTo (a ++ b) (a.length : Int) = some a := by
  unfold goSliceTo goSlice
  rw [if_pos]
  · simp [List.take_left]
  · refine ⟨le_refl _, Int.natCast_nonneg _, ?_⟩
    simp only [List.length_append]
    push_cast
    omega

theorem goSliceFrom_append (a b : List Char) :
    goSliceFrom (a ++ b) (a.length : Int) = some b := by
  unfold goSliceFrom goSlice
  rw [if_pos]
  · have h1 : ((a.length : Int)).toNat = a.length := Int.toNat_natCast _
    have h2 : (((a ++ b).length : Int) - (a.length : Int)).toNat = b.length := by
      simp only [List.length_append]
      push_cast
      omega
    rw [h1, h2, List.drop_left, List.take_length]
  · refine ⟨Int.natCast_nonneg _, ?_, le_refl _⟩
    simp only [List.length_append]
    push_cast
    omega

theorem goSlice_middle (a b c : List Char) :
    goSlice (a ++ b ++ c) (a.length : Int) ((a.length : Int) + (b.length : Int)) = some b := by
  unfold goSlice
  rw [if_pos]
  · have h1 : ((a.length : Int)).toNat = a.length := Int.toNat_natCast _
    have h2 : ((a.length : Int) + (b.length : Int) - (a.length : Int)).toNat = b.length := by
      omega
    rw [h1, h2, List.append_assoc, List.drop_left, List.take_left]
  · refine ⟨Int.natCast_nonneg _, by omega, ?_⟩
    simp only [List.length_append]
    push_cast
    omega

/-! Auxiliary lemmas about the parsing loops. -/

theorem parseLoop_skip_errs (ls rest : List (List Char)) (acc : List Goroutine)
    (h : ∀ l ∈ ls, parseHeader l = .err) :
    parseLoop (ls ++ rest) acc = parseLoop rest acc := by
  induction ls with
  | nil => rfl
  | cons x t ih =>
    have hx := h x (List.mem_cons_self x t)
    simp only [List.cons_append, parseLoop, hx]
    exact ih fun l hl => h l (List.mem_cons_of_mem x hl)

theorem parseHeader_err_of_malformed (h : List Char) (hm : headerMalformed h = true) :
    parseHeader h = .err := by
  rcases hs : splitChar ' ' h with _ | ⟨t0, _ | ⟨t1, _ | ⟨t2, ts⟩⟩⟩ <;>
    simp only [headerMalformed, hs, Bool.or_eq_true, decide_eq_true_eq,
      Option.isNone_iff_eq_none] at hm <;>
    simp only [parseHeader, hs]
  rcases hm with hm | hm
  · simp [hm]
  · by_cases ht : t0 = toL ("goroutine") <;> simp [ht, hm]

theorem framesOfPairs_append (a b : List (List Char × List Char)) :
    framesOfPairs (a ++ b) = framesOfPairs a ++ framesOfPairs b := by
  simp [framesOfPairs]

theorem framesOfPairs_cons_err (p : List Char × List Char)
    (t : List (List Char × List Char)) (hp : parseStackPosLine p.2 = .err) :
    framesOfPairs (p :: t) = framesOfPairs t := by
  simp [framesOfPairs, List.filterMap_cons, hp]

theorem framesOfPairs_length (l : List (List Char × List Char))
    (h : ∀ p ∈ l, ∃ f ln q, parseStackPosLine p.2 = .ok (f, ln, q)) :
    (framesOfPairs l).length = l.length := by
  induction l with
  | nil => rfl
  | cons p t ih =>
    obtain ⟨f, ln, q, hp⟩ := h p (List.mem_cons_self p t)
    simp only [framesOfPairs, List.filterMap_cons, hp, List.length_cons]
    have := ih fun x hx => h x (List.mem_cons_of_mem p hx)
    simp only [framesOfPairs] at this
    simp [this]

theorem blockLoop_flatten (pairs : List (List Char × List Char)) (r : Goroutine)
    (acc : List Goroutine) (rest : List (List Char))
    (hfn : ∀ p ∈ pairs, p.1 ≠ [] ∧ goHasPre p.1 (toL ("created by ")) = false)
    (hnf : ∀ p ∈ pairs, parseStackPosLine p.2 ≠ .fault) :
    blockLoop (flattenPairs pairs ++ [] :: rest) r acc
      = parseLoop rest
          (acc ++ [{ r with StackTrace := r.StackTrace ++ framesOfPairs pairs }]) := by
  induction pairs generalizing r with
  | nil =>
    rw [flattenPairs, List.nil_append, blockLoop.eq_def]
    simp [framesOfPairs]
  | cons p t ih =>
    obtain ⟨hp1, hp2⟩ := hfn p (List.mem_cons_self p t)
    have hfn' : ∀ q ∈ t, q.1 ≠ [] ∧ goHasPre q.1 (toL ("created by ")) = false :=
      fun q hq => hfn q (List.mem_cons_of_mem p hq)
    have hnf' : ∀ q ∈ t, parseStackPosLine q.2 ≠ .fault :=
      fun q hq => hnf q (List.mem_cons_of_mem p hq)
    cases hp : parseStackPosLine p.2 with
    | fault => exact absurd hp (hnf p (List.mem_cons_self p t))
    | err =>
      rw [flattenPairs, List.cons_append, List.cons_append, blockLoop.eq_def]
      simp only [hp1, hp2, Bool.false_eq_true, if_false, ite_false, hp,
        framesOfPairs_cons_err p t hp]
      exact ih r hfn' hnf'
    | ok v =>
      obtain ⟨f, ln, q⟩ := v
      rw [flattenPairs, List.cons_append, List.cons_append, blockLoop.eq_def]
      simp only [hp1, hp2, Bool.false_eq_true, if_false, ite_false, hp]
      rw [ih _ hfn' hnf']
      simp [framesOfPairs, List.filterMap_cons, hp, List.append_assoc]

theorem parseQualifiers_skip (q : List Char) (pre post : List (List Char))
    (st : Int × Bool)
    (h1 : goHasSuf (trimChar ' ' q) (toL ("minutes")) = false)
    (h2 : trimChar ' ' q ≠ toL ("locked to thread")) :
    parseQualifiers st (pre ++ q :: post) = parseQualifiers st (pre ++ post) := by
  induction pre generalizing st with
  | nil =>
    obtain ⟨w, locked⟩ := st
    rw [List.nil_append, List.nil_append, parseQualifiers]
    simp [h1, h2]
  | cons a pre ih =>
    obtain ⟨w, locked⟩ := st
    rw [List.cons_append, List.cons_append, parseQualifiers.eq_def, parseQualifiers.eq_def]
    simp only
    split
    · cases goSliceTo (trimChar ' ' a) (indexOf (trimChar ' ' a) ' ') with
      | none => rfl
      | some numStr =>
        dsimp only
        cases goParseInt numStr 10 64 with
        | none => rfl
        | some w2 => exact ih (w2, locked)
    · split
      · exact ih _
      · exact ih _

theorem head?_append_ne_nil (s b : List Char) (hs : s ≠ []) :
    (s ++ b).head? = s.head? := by
  cases s with
  | nil => exact absurd rfl hs
  | cons a t => rfl

theorem parseQualifiers_minutes (w : Int) (b : Bool) (s : List Char) (n : Int)
    (hne : s ≠ []) (hsp : ' ' ∉ s) (hp : goParseInt s 10 64 = some n) :
    parseQualifiers (w, b) [s ++ toL (" minutes")] = .ok (n, b) := by
  have hsm : toL (" minutes") = ' ' :: toL ("minutes") := rfl
  have htrim : trimChar ' ' (s ++ toL (" minutes")) = s ++ toL (" minutes") := by
    apply trimChar_eq_self
    · rw [head?_append_ne_nil s _ hne]
      exact head?_ne_of_not_mem hsp
    · rw [List.getLast?_append]
      have hlast : (toL (" minutes")).getLast? = some 's' := rfl
      rw [hlast]
      simp [Option.or]
  have hsuf : goHasSuf (s ++ toL (" minutes")) (toL ("minutes")) = true := by
    rw [hsm, List.append_cons]
    exact goHasSuf_append _ _
  have hidx : indexOf (s ++ toL (" minutes")) ' ' = (s.length : Int) := by
    rw [hsm]
    exact indexOf_append_cons s (toL ("minutes")) ' ' hsp
  have hslice : goSliceTo (s ++ toL (" minutes")) (s.length : Int) = some s :=
    goSliceTo_append s (toL (" minutes"))
  rw [parseQualifiers, htrim, hsuf]
  simp only [if_true, hidx, hslice, hp]
  rfl

theorem parseQualifiers_locked (w : Int) (b : Bool) (q : List Char)
    (hq : trimChar ' ' q = toL ("locked to thread")) :
    parseQualifiers (w, b) [q] = .ok (w, true) := by
  rw [parseQualifiers, hq]
  have h1 : goHasSuf (toL ("locked to thread")) (toL ("minutes")) = false := by decide
  simp [h1]
  rfl

theorem parseStackPosLine_no_offset (raw file lineStr : List Char) (n : Int)
    (ht : trimSpace raw = file ++ ':' :: lineStr)
    (hc : ':' ∉ lineStr) (hs : ' ' ∉ lineStr)
    (hn : goParseInt lineStr 10 32 = some n) :
    parseStackPosLine raw = .ok (file, n, none) := by
  have hne0 : file ++ ':' :: lineStr ≠ [] := by simp
  have hsep := lastIndexOf_append_cons file lineStr ':' hc
  have hslice := goSliceTo_append file (':' :: lineStr)
  have hnotmem : ' ' ∉ ':' :: lineStr := by simp [hs]
  have hlsp := lastIndexOf_append_not_mem file (':' :: lineStr) ' ' hnotmem
  have hlt := lastIndexOf_lt_length file ' '
  have hcond : lastIndexOf file ' ' ≤ (file.length : Int) + 1 := by omega
  have hfrom : goSliceFrom (file ++ ':' :: lineStr) ((file.length : Int) + 1)
      = some lineStr := by
    have h1 := goSliceFrom_append (file ++ [':']) lineStr
    have h2 : (((file ++ [':']).length : Int)) = (file.length : Int) + 1 := by
      simp [List.length_append]
    rw [h2, ← List.append_cons] at h1
    exact h1
  simp only [parseStackPosLine, ht, if_neg hne0, hsep, hslice, hlsp, ge_iff_le,
    if_pos hcond, hfrom, hn]

theorem parseStackPosLine_with_offset (raw file lineStr hexStr : List Char) (n p : Int)
    (ht : trimSpace raw = file ++ ':' :: lineStr ++ ' ' :: '+' :: '0' :: 'x' :: hexStr)
    (hlne : lineStr ≠ [])
    (hc1 : ':' ∉ lineStr) (hc2 : ':' ∉ hexStr) (hs2 : ' ' ∉ hexStr)
    (hn : goParseInt lineStr 10 32 = some n)
    (hp : goParseInt hexStr 16 64 = some p) :
    parseStackPosLine raw = .ok (file, n, some p) := by
  have hT : file ++ ':' :: lineStr ++ ' ' :: '+' :: '0' :: 'x' :: hexStr
      = (file ++ ':' :: lineStr) ++ ' ' :: '+' :: '0' :: 'x' :: hexStr := by
    simp [List.append_assoc]
  have hne0 : (file ++ ':' :: lineStr) ++ ' ' :: '+' :: '0' :: 'x' :: hexStr ≠ [] := by
    simp
  have hc3 : ':' ∉ (' ' :: '+' :: '0' :: 'x' :: hexStr) := by simp [hc2]
  have hsep :
      lastIndexOf ((file ++ ':' :: lineStr) ++ ' ' :: '+' :: '0' :: 'x' :: hexStr) ':'
        = (file.length : Int) := by
    rw [lastIndexOf_append_not_mem _ _ ':' hc3]
    exact lastIndexOf_append_cons file lineStr ':' hc1
  have hslice :
      goSliceTo ((file ++ ':' :: lineStr) ++ ' ' :: '+' :: '0' :: 'x' :: hexStr)
        (file.length : Int) = some file := by
    have h1 := goSliceTo_append file (':' :: (lineStr ++ ' ' :: '+' :: '0' :: 'x' :: hexStr))
    rw [show file ++ ':' :: (lineStr ++ ' ' :: '+' :: '0' :: 'x' :: hexStr)
        = (file ++ ':' :: lineStr) ++ ' ' :: '+' :: '0' :: 'x' :: hexStr by
      simp [List.append_assoc]] at h1
    exact h1
  have hs3 : ' ' ∉ ('+' :: '0' :: 'x' :: hexStr) := by simp [hs2]
  have hlsp :
      lastIndexOf ((file ++ ':' :: lineStr) ++ ' ' :: '+' :: '0' :: 'x' :: hexStr) ' '
        = (file.length : Int) + 1 + (lineStr.length : Int) := by
    rw [lastIndexOf_append_cons _ _ ' ' hs3]
    simp only [List.length_append, List.length_cons]
    push_cast
    ring
  have hlpos : 0 < lineStr.length := List.length_pos.mpr hlne
  have hcond :
      ¬ ((file.length : Int) + 1 + (lineStr.length : Int) ≤ (file.length : Int) + 1) := by
    omega
  have hfromPos :
      goSliceFrom ((file ++ ':' :: lineStr) ++ ' ' :: '+' :: '0' :: 'x' :: hexStr)
        ((file.length : Int) + 1 + (lineStr.length : Int) + 4) = some hexStr := by
    have h1 := goSliceFrom_append ((file ++ ':' :: lineStr) ++ [' ', '+', '0', 'x']) hexStr
    have h2 : ((((file ++ ':' :: lineStr) ++ [' ', '+', '0', 'x']).length : Int))
        = (file.length : Int) + 1 + (lineStr.length : Int) + 4 := by
      simp only [List.length_append, List.length_cons, List.length_nil]
      push_cast
      ring
    rw [h2] at h1
    rw [show ((file ++ ':' :: lineStr) ++ [' ', '+', '0', 'x']) ++ hexStr
        = (file ++ ':' :: lineStr) ++ ' ' :: '+' :: '0' :: 'x' :: hexStr by
      simp [List.append_assoc]] at h1
    exact h1
  have hmid :
      goSlice ((file ++ ':' :: lineStr) ++ ' ' :: '+' :: '0' :: 'x' :: hexStr)
        ((file.length : Int) + 1) ((file.length : Int) + 1 + (lineStr.length : Int))
        = some lineStr := by
    have h1 := goSlice_middle (file ++ [':']) lineStr (' ' :: '+' :: '0' :: 'x' :: hexStr)
    have h2 : (((file ++ [':']).length : Int)) = (file.length : Int) + 1 := by
      simp [List.length_append]
    rw [h2] at h1
    rw [show ((file ++ [':']) ++ lineStr) ++ ' ' :: '+' :: '0' :: 'x' :: hexStr
        = (file ++ ':' :: lineStr) ++ ' ' :: '+' :: '0' :: 'x' :: hexStr by
      simp [List.append_assoc]] at h1
    exact h1
  simp only [parseStackPosLine, ht, hT, if_neg hne0, hsep, hslice, hlsp, ge_iff_le,
    if_neg hcond, hfromPos, hp, hmid, hn]

/-! Claim theorems. -/

/-- C1, counterexample: a stream that fails mid-read after delivering two
complete blocks does NOT return "no records at all": `ParseStackFrame`
returns both assembled records together with the stream error, refuting the
all-or-nothing reading of the claim at this concrete input. -/
theorem c1_counterexample :
    ParseStackFrame ⟨goLines (toL ("goroutine 1 [running]:\n\ngoroutine 2 [running]:\n\n")),
        some (toL ("read failure"))⟩
      = .ok ([⟨1, toL ("running"), 0, [], none, false⟩,
              ⟨2, toL ("running"), 0, [], none, false⟩], some (toL ("read failure"))) := by
  decide

/-- C1, amended: on a stream I/O error the error is surfaced as the error
result of `ParseStackFrame`, but the records fully assembled before the
failure are returned alongside it — the record list is the same as for the
error-free stream with the same delivered lines. -/
theorem c1_amended_stream_error_keeps_records (lines : List (List Char))
    (e : List Char) (rs : List Goroutine)
    (h : parseLoop lines [] = .ok rs) :
    ParseStackFrame ⟨lines, some e⟩ = .ok (rs, some e)
      ∧ ParseStackFrame ⟨lines, none⟩ = .ok (rs, none) := by
  constructor <;> simp [ParseStackFrame, h]

/-- C1, witness for the amended theorem at a concrete one-block stream. -/
theorem c1_witness :
    ParseStackFrame ⟨goLines (toL ("goroutine 3 [running]:\n\n")), some (toL ("boom"))⟩
      = .ok ([⟨3, toL ("running"), 0, [], none, false⟩], some (toL ("boom")))
    ∧ ParseStackFrame ⟨goLines (toL ("goroutine 3 [running]:\n\n")), none⟩
      = .ok ([⟨3, toL ("running"), 0, [], none, false⟩], none) :=
  c1_amended_stream_error_keeps_records _ (toL ("boom")) _ (by decide)

/-- C2, counterexample: the qualifier `foo minutes` is not one of the two
recognized shapes, yet `parseHeader` returns an error and drops the block,
refuting "an unrecognized qualifier is never an error". -/
theorem c2_counterexample :
    parseHeader (toL ("goroutine 1 [running, foo minutes]:")) = .err := by
  decide

/-- C2, amended: an unrecognized qualifier that does not end in the literal
`minutes` (and is not `locked to thread`) is ignored by the qualifier loop —
processing the qualifier list with it equals processing the list without
it — and the record is still returned, as at the sample header with the
unrecognized qualifier `GC worker init`.  (A qualifier that does end in
`minutes` without a parsable integer count is an error, and `minutes` alone
panics; see `c2_counterexample` and C10.) -/
theorem c2_amended_qualifier_ignored :
    (∀ (q : List Char) (pre post : List (List Char)) (st : Int × Bool),
        goHasSuf (trimChar ' ' q) (toL ("minutes")) = false →
        trimChar ' ' q ≠ toL ("locked to thread") →
        parseQualifiers st (pre ++ q :: post) = parseQualifiers st (pre ++ post))
    ∧ parseHeader (toL ("goroutine 1 [running, GC worker init]:"))
        = .ok ⟨1, toL ("running"), 0, [], none, false⟩ :=
  ⟨parseQualifiers_skip, by decide⟩

/-- C2, witness for the amended theorem at a concrete qualifier. -/
theorem c2_witness :
    parseQualifiers (0, false) ([] ++ toL (" GC worker init") :: [])
      = parseQualifiers (0, false) ([] ++ []) :=
  c2_amended_qualifier_ignored.1 (toL (" GC worker init")) [] [] (0, false)
    (by decide) (by decide)

/-- C3: in a block whose position lines all parse except exactly one — the
pair `bad`, whose position line yields a frame-level parse error — the
record is still returned, its `StackTrace` holds exactly the frames of every
other pair of the block in order, and nothing else: the trace equals the
frames of `pre ++ post` and its length is one less than the pair count. -/
theorem c3_one_bad_position_line_record_survives (h : List Char) (r : Goroutine)
    (pre post : List (List Char × List Char)) (bad : List Char × List Char)
    (hh : parseHeader h = .ok r)
    (hbad : parseStackPosLine bad.2 = .err)
    (hok : ∀ p ∈ pre ++ post, ∃ f ln q, parseStackPosLine p.2 = .ok (f, ln, q))
    (hfn : ∀ p ∈ pre ++ [bad] ++ post,
        p.1 ≠ [] ∧ goHasPre p.1 (toL ("created by ")) = false) :
    ParseStackFrame ⟨h :: (flattenPairs (pre ++ [bad] ++ post) ++ [[]]), none⟩
      = .ok ([{ r with StackTrace := framesOfPairs (pre ++ post) }], none)
    ∧ (framesOfPairs (pre ++ post)).length = pre.length + post.length := by
  have hnf : ∀ p ∈ pre ++ [bad] ++ post, parseStackPosLine p.2 ≠ .fault := by
    intro p hp
    rcases List.mem_append.mp hp with hp' | hp'
    · rcases List.mem_append.mp hp' with h1 | h1
      · obtain ⟨f, ln, q, hq⟩ := hok p (List.mem_append.mpr (Or.inl h1))
        simp [hq]
      · rcases List.mem_singleton.mp h1 with rfl
        simp [hbad]
    · obtain ⟨f, ln, q, hq⟩ := hok p (List.mem_append.mpr (Or.inr hp'))
      simp [hq]
  have hframes : framesOfPairs (pre ++ [bad] ++ post) = framesOfPairs (pre ++ post) := by
    rw [framesOfPairs_append, framesOfPairs_append, framesOfPairs_append]
    rw [framesOfPairs_cons_err bad [] hbad]
    simp [framesOfPairs]
  have hblock := blockLoop_flatten (pre ++ [bad] ++ post)
    { r with StackTrace := [] } [] [] hfn hnf
  constructor
  · rw [ParseStackFrame]
    simp only
    rw [parseLoop, hh]
    dsimp only
    rw [hblock, hframes]
    rfl
  · rw [framesOfPairs_length (pre ++ post) hok]
    simp

/-- C4: a block whose header is malformed in the sense of the claim (fewer
than 3 space-separated tokens, first token not `goroutine`, or a non-integer
id), and whose remaining lines are not themselves parsable headers, is
dropped entirely: parsing the stream with the bad block is the same as
parsing the stream without it, so every subsequent well-formed block is
still parsed, in stream order, whatever the stream error state `f`. -/
theorem c4_malformed_header_block_dropped (badHeader : List Char)
    (body rest : List (List Char)) (f : Option (List Char))
    (h1 : headerMalformed badHeader = true)
    (h2 : ∀ l ∈ body, parseHeader l = .err) :
    ParseStackFrame ⟨(badHeader :: body) ++ rest, f⟩ = ParseStackFrame ⟨rest, f⟩ := by
  have hall : ∀ l ∈ badHeader :: body, parseHeader l = .err := by
    intro l hl
    rcases List.mem_cons.mp hl with h | h
    · subst h
      exact parseHeader_err_of_malformed l h1
    · exact h2 l h
  have hskip := parseLoop_skip_errs (badHeader :: body) rest [] hall
  simp only [List.cons_append] at hskip
  rw [ParseStackFrame, ParseStackFrame]
  simp only [List.cons_append]
  rw [hskip]

/-- C3, witness: a three-frame block whose middle position line is bad. -/
theorem c3_witness :
    ParseStackFrame ⟨toL ("goroutine 4 [running]:") ::
        (flattenPairs ([(toL ("main.good"), toL ("\t/a/x.go:3 +0x10"))]
          ++ [(toL ("main.bad"), toL ("\t/a/y.go:zz"))]
          ++ [(toL ("main.tail"), toL ("\t/a/z.go:7"))]) ++ [[]]), none⟩
      = .ok ([{ (⟨4, toL ("running"), 0, [], none, false⟩ : Goroutine) with
            StackTrace := framesOfPairs ([(toL ("main.good"), toL ("\t/a/x.go:3 +0x10"))]
              ++ [(toL ("main.tail"), toL ("\t/a/z.go:7"))]) }], none)
    ∧ (framesOfPairs ([(toL ("main.good"), toL ("\t/a/x.go:3 +0x10"))]
          ++ [(toL ("main.tail"), toL ("\t/a/z.go:7"))])).length = 1 + 1 :=
  c3_one_bad_position_line_record_survives _ _ _ _ _ (by decide) (by decide)
    (by
      intro p hp
      simp only [List.cons_append, List.nil_append, List.mem_cons,
        List.not_mem_nil, or_false] at hp
      rcases hp with rfl | rfl
      · exact ⟨toL ("/a/x.go"), 3, some 16, by decide⟩
      · exact ⟨toL ("/a/z.go"), 7, none, by decide⟩)
    (by decide)

/-- C4, witness: a block with a non-integer id followed by a good block. -/
theorem c4_witness :
    ParseStackFrame ⟨(toL ("goroutine abc [running]:") ::
        [toL ("main.f"), toL ("\t/a.go:1")]) ++ [toL ("goroutine 2 [running]:"), []], none⟩
      = ParseStackFrame ⟨[toL ("goroutine 2 [running]:"), []], none⟩ :=
  c4_malformed_header_block_dropped _ _ _ _ (by decide) (by decide)

/-- C5: a qualifier of shape `<N> minutes` sets `WaitSinceMin` to `N` and a
qualifier trimming to `locked to thread` sets `LockedToThread`, and both
co-occur in the claim's example header, whose whole-input parse yields
exactly the claimed record with an empty `StackTrace`. -/
theorem c5_qualifiers_set_fields :
    (∀ (w : Int) (b : Bool) (s : List Char) (n : Int),
        s ≠ [] → ' ' ∉ s → goParseInt s 10 64 = some n →
        parseQualifiers (w, b) [s ++ toL (" minutes")] = .ok (n, b))
    ∧ (∀ (w : Int) (b : Bool) (q : List Char),
        trimChar ' ' q = toL ("locked to thread") →
        parseQualifiers (w, b) [q] = .ok (w, true))
    ∧ ParseStackFrame
        ⟨goLines (toL ("goroutine 7 [chan receive, 3 minutes, locked to thread]:\n\n")),
         none⟩
        = .ok ([⟨7, toL ("chan receive"), 3, [], none, true⟩], none) :=
  ⟨parseQualifiers_minutes, parseQualifiers_locked, by decide⟩

/-- C5, witness for both quantified conjuncts at concrete qualifiers. -/
theorem c5_witness :
    parseQualifiers (0, false) [toL ("3") ++ toL (" minutes")] = .ok (3, false)
    ∧ parseQualifiers (5, false) [toL (" locked to thread")] = .ok (5, true) :=
  ⟨c5_qualifiers_set_fields.1 0 false (toL ("3")) 3 (by decide) (by decide) (by decide),
   c5_qualifiers_set_fields.2.1 5 false (toL (" locked to thread")) (by decide)⟩

/-- C6: for a single well-formed block — a parsable header followed by frame
line pairs whose position lines all parse — `ParseStackFrame` returns
exactly one record whose `ID`, `Status`, `WaitSinceMin`, `CratedBy` and
`LockedToThread` are those parsed from the header and whose trace is the
frames of the pairs in order; and the claim's concrete example yields
exactly its claimed record. -/
theorem c6_single_block_fields_match :
    (∀ (h : List Char) (r : Goroutine) (pairs : List (List Char × List Char)),
        parseHeader h = .ok r →
        (∀ p ∈ pairs, p.1 ≠ [] ∧ goHasPre p.1 (toL ("created by ")) = false) →
        (∀ p ∈ pairs, ∃ f ln q, parseStackPosLine p.2 = .ok (f, ln, q)) →
        ParseStackFrame ⟨h :: (flattenPairs pairs ++ [[]]), none⟩
          = .ok ([⟨r.ID, r.Status, r.WaitSinceMin, framesOfPairs pairs,
                  r.CratedBy, r.LockedToThread⟩], none))
    ∧ ParseStackFrame
        ⟨goLines (toL ("goroutine 5 [running]:\nmain.foo\n\t/a/b.go:10 +0x1a\n\n")), none⟩
        = .ok ([⟨5, toL ("running"), 0, [⟨toL ("main.foo"), toL ("/a/b.go"), 10, some 26⟩],
                none, false⟩], none) := by
  constructor
  · intro h r pairs hh hfn hok
    have hnf : ∀ p ∈ pairs, parseStackPosLine p.2 ≠ .fault := by
      intro p hp
      obtain ⟨f, ln, q, hq⟩ := hok p hp
      simp [hq]
    have hblock := blockLoop_flatten pairs { r with StackTrace := [] } [] [] hfn hnf
    rw [ParseStackFrame]
    simp only
    rw [parseLoop, hh]
    dsimp only
    rw [hblock]
    rfl
  · decide

/-- C6, witness for the quantified conjunct at a concrete one-frame block. -/
theorem c6_witness :
    ParseStackFrame ⟨toL ("goroutine 9 [select]:") ::
        (flattenPairs [(toL ("main.run"), toL ("\t/srv/app/main.go:42 +0x2b"))] ++ [[]]),
        none⟩
      = .ok ([⟨9, toL ("select"), 0,
              framesOfPairs [(toL ("main.run"), toL ("\t/srv/app/main.go:42 +0x2b"))],
              none, false⟩], none) :=
  c6_single_block_fields_match.1 _ (⟨9, toL ("select"), 0, [], none, false⟩) _
    (by decide) (by decide)
    (by
      intro p hp
      simp only [List.mem_cons, List.not_mem_nil, or_false] at hp
      subst hp
      exact ⟨toL ("/srv/app/main.go"), 42, some 43, by decide⟩)

/-- C7: a position line whose trimmed text is `<file>:<line>` with no
space after the line number yields `Position` absent, and one of shape
`<file>:<line> +0x<hex>` yields `Position` equal to the hex offset read as
an integer; the file/line split is at the rightmost colon, so `file` itself
may contain colons (nothing above restricts it). -/
theorem c7_position_line_shapes :
    (∀ (raw file lineStr : List Char) (n : Int),
        trimSpace raw = file ++ ':' :: lineStr →
        ':' ∉ lineStr → ' ' ∉ lineStr →
        goParseInt lineStr 10 32 = some n →
        parseStackPosLine raw = .ok (file, n, none))
    ∧ (∀ (raw file lineStr hexStr : List Char) (n p : Int),
        trimSpace raw = file ++ ':' :: lineStr ++ ' ' :: '+' :: '0' :: 'x' :: hexStr →
        lineStr ≠ [] →
        ':' ∉ lineStr → ':' ∉ hexStr → ' ' ∉ hexStr →
        goParseInt lineStr 10 32 = some n →
        goParseInt hexStr 16 64 = some p →
        parseStackPosLine raw = .ok (file, n, some p)) :=
  ⟨parseStackPosLine_no_offset, parseStackPosLine_with_offset⟩

/-- C7, witness: a colon-bearing file path without offset, and a plain path
with a `+0x` offset. -/
theorem c7_witness :
    parseStackPosLine (toL ("\tC:/work/a.go:10")) = .ok (toL ("C:/work/a.go"), 10, none)
    ∧ parseStackPosLine (toL ("\t/usr/srv.go:2969 +0x970"))
        = .ok (toL ("/usr/srv.go"), 2969, some 2416) :=
  ⟨c7_position_line_shapes.1 (toL ("\tC:/work/a.go:10")) (toL ("C:/work/a.go"))
      (toL ("10")) 10 (by decide) (by decide) (by decide) (by decide),
   c7_position_line_shapes.2 (toL ("\t/usr/srv.go:2969 +0x970")) (toL ("/usr/srv.go"))
      (toL ("2969")) (toL ("970")) 2969 2416 (by decide) (by decide) (by decide)
      (by decide) (by decide) (by decide) (by decide)⟩

/-- C8, counterexample: with the frame `A / b.go / 1` and search substring
`A`, a case-insensitive containment holds (lowering both sides, the
rendering contains the substring), yet `StackContains` returns false,
because the code lowercases only the frame's rendering and compares the
substring verbatim — refuting the "contains the substring
case-insensitively" reading at this concrete input. -/
theorem c8_counterexample :
    listContains (toLowerL (StackFrame.goString ⟨toL ("A"), toL ("b.go"), 1, none⟩ 0))
        (toLowerL (toL ("A"))) = true
    ∧ StackContains (fun _ => 0) [⟨toL ("A"), toL ("b.go"), 1, none⟩] (toL ("A")) = false := by
  decide

/-- C8, amended: `StackContains` returns true iff some frame's LOWERCASED
rendering contains the verbatim (not lowercased) search substring, and it
returns false on the empty frame list; `addr` supplies the `Position`
pointer addresses the rendering depends on. -/
theorem c8_amended_stack_contains_iff :
    (∀ (addr : StackFrame → Nat) (sf : List StackFrame) (sub : List Char),
        StackContains addr sf sub = true
          ↔ ∃ s ∈ sf, listContains (toLowerL (s.goString (addr s))) sub = true)
    ∧ (∀ (addr : StackFrame → Nat) (sub : List Char), StackContains addr [] sub = false) := by
  constructor
  · intro addr sf sub
    simp [StackContains, List.any_eq_true]
  · intro addr sub
    rfl

/-- C9: the `%x` operand of `StackFrame.String` is the `*int` pointer
itself, so the rendered suffix is the hexadecimal of the POINTER ADDRESS
(`addr`), not of the stored `Position` value: with `Position = some 26`
(0x1a) the output reads `+0x270f` when the allocation address is 9999, and
reads the claimed `+0x1a` only in the coincidence `addr = 26`. -/
theorem c9_rendering_prints_pointer_address :
    StackFrame.goString ⟨toL ("main.foo"), toL ("/a/b.go"), 10, some 26⟩ 9999
      = toL ("main.foo\n   file:///a/b.go#10 +0x270f")
    ∧ StackFrame.goString ⟨toL ("main.foo"), toL ("/a/b.go"), 10, some 26⟩ 26
      = toL ("main.foo\n   file:///a/b.go#10 +0x1a") := by
  decide

/-- C10: the parsing helpers are NOT total: a non-blank position line with
no colon makes `parseStackPos` slice with `LastIndex = -1` and abort with an
out-of-range slice (Go panic, modelled `.fault`), and a header whose
qualifier is exactly `minutes` makes `parseHeader` slice with `Index = -1`
and abort likewise — exactly at the two code positions the claim cites as
safe. -/
theorem c10_helpers_fault_on_malformed_inputs :
    parseStackPosLine (toL ("ab")) = .fault
    ∧ parseHeader (toL ("goroutine 8 [running, minutes]:")) = .fault := by
  decide
